import Mathlib

/-!
Verification of the clippings-parser core (`src/file_parser.rs`) against its
natural-language specification.

Rust strings (`&str` / `String`) are modelled as `List Char`; the raw line
stream produced by `BufReader::lines()` is modelled as a
`List (Except Unit (List Char))` (an `io::Result<String>` per line, with the
error payload irrelevant to the parser and hence modelled as `Unit`).
Machine integers (`u64`) are modelled as `Nat` with explicit `< 2^64` bounds
where the Rust parser checks for overflow.

Rust code can also panic (`unwrap()` on a failed regex match, out-of-bounds
indexing `lines[3]`).  A panic is a distinct observable outcome from returning
`Err`, so fallible functions that can additionally panic return
`Option (Except ParseError α)` where `none` models a panic.
-/

set_option linter.unusedVariables false

deriving instance DecidableEq for Except

namespace Clippings

/-! ### Generic character-list helpers -/

/-- Does `p` occur as a prefix of `s`?  (Models `str::starts_with` and the
    anchored literal parts of the regexes.) -/
def startsWith : List Char → List Char → Bool
  | [], _ => true
  | _ :: _, [] => false
  | p :: ps, c :: cs => p == c && startsWith ps cs

/-- Does `p` occur as a contiguous subsequence of `s`? -/
def containsSeq (p : List Char) : List Char → Bool
  | [] => p.isEmpty
  | c :: cs => startsWith p (c :: cs) || containsSeq p cs

/-- Models Rust `str::split(c)`: splits at every occurrence of `c`, keeping
    empty parts (`"".split('-')` yields `[""]`, `"a-"` yields `["a", ""]`). -/
def splitOnChar (c : Char) : List Char → List (List Char)
  | [] => [[]]
  | a :: rest =>
    if a == c then [] :: splitOnChar c rest
    else
      match splitOnChar c rest with
      | p :: ps => (a :: p) :: ps
      | [] => [[a]]

/-- Maximal run of characters satisfying `p` at the front of the list,
    together with the remainder. -/
def spanClass (p : Char → Bool) : List Char → List Char × List Char
  | [] => ([], [])
  | c :: rest =>
    if p c then
      let (x, y) := spanClass p rest
      (c :: x, y)
    else ([], c :: rest)

/-- Up to `n` characters satisfying `p` from the front of the list, together
    with the remainder (models chrono's bounded numeric field scanning). -/
def takeUpTo : Nat → (Char → Bool) → List Char → List Char × List Char
  | 0, _, s => ([], s)
  | _ + 1, _, [] => ([], [])
  | n + 1, p, c :: rest =>
    if p c then
      let (x, y) := takeUpTo n p rest
      (c :: x, y)
    else ([], c :: rest)

/-- Numeric value of a decimal digit string (most significant digit first),
    starting from accumulator `acc`. -/
def digitsVal (acc : Nat) : List Char → Nat
  | [] => acc
  | c :: rest => digitsVal (acc * 10 + (c.toNat - 48)) rest

/-! ### u64 parsing (Rust `u64::from_str`)

Rust's `u64::from_str` accepts an optional leading `'+'`, then one or more
ASCII decimal digits, and fails on overflow: at each step it performs
`checked_mul(10)` and `checked_add(digit)`.  For `Nat` accumulators the two
per-step checks are together equivalent to checking
`acc * 10 + digit < 2^64`. -/

/-- The u64 bound `2^64`. -/
def U64BOUND : Nat := 18446744073709551616

/-- Digit-accumulation loop of `u64::from_str` with per-step overflow check. -/
def u64Loop (acc : Nat) : List Char → Option Nat
  | [] => some acc
  | c :: rest =>
    if c.isDigit then
      if acc * 10 + (c.toNat - 48) < U64BOUND then
        u64Loop (acc * 10 + (c.toNat - 48)) rest
      else none
    else none

/-- Sign handling of `u64::from_str`: a leading `'+'` is stripped (a `'-'`
    is not, for an unsigned type, and later fails as a non-digit). -/
def stripPlus : List Char → List Char
  | [] => []
  | c :: r => if c = '+' then r else c :: r

/-- Models Rust `u64::from_str`: optional `'+'` sign, then a non-empty digit
    string whose value fits in a `u64`. -/
def parseU64 (s : List Char) : Option Nat :=
  if (stripPlus s).isEmpty then none else u64Loop 0 (stripPlus s)

/-- Specification-side characterization of a valid u64 numeral: an optional
    leading `'+'`, then a non-empty string of decimal digits whose numeric
    value is below `2^64`.  Used to state the corrected claims C6/C7. -/
def u64Str (s : List Char) : Bool :=
  !(stripPlus s).isEmpty && (stripPlus s).all Char.isDigit &&
    decide (digitsVal 0 (stripPlus s) < U64BOUND)

/-- Value of a valid u64 numeral (sign stripped, digits accumulated). -/
def u64Val (s : List Char) : Nat :=
  digitsVal 0 (stripPlus s)

/-- Modelled from the spec: the claims C6/C7 describe a page/location part as
    "a single unsigned integer string (a non-empty string of decimal digits)";
    this is that notion, used to refute the claims as stated. -/
def isDigitStr (s : List Char) : Bool :=
  !s.isEmpty && s.all Char.isDigit

/-! ### Data model (`file_parser.rs` lines 13-121) -/

/-- The closed error taxonomy `ParseError` (lines 99-121).  `FileReadError`
    carries an `io::Error` in Rust; its payload is never inspected by the
    parsing core, so it is dropped here. -/
inductive ParseError where
  | FileReadError : ParseError
  | TitleNotFound : ParseError
  | AuthorNotFound : ParseError
  | KindNotFound : ParseError
  | LocationNotFound : ParseError
  | DateNotFound : ParseError
  | InvalidKind : List Char → ParseError
  | InvalidPage : List Char → ParseError
  | InvalidLocation : List Char → ParseError
  | InvalidDate : List Char → ParseError
deriving DecidableEq

/-- `enum EntryType` (lines 53-58). -/
inductive EntryType where
  | Highlight : EntryType
  | Note : EntryType
  | Bookmark : EntryType
deriving DecidableEq

/-- The literal label of each `EntryType` variant. -/
def EntryType.label : EntryType → List Char
  | .Highlight => "Highlight".toList
  | .Note => "Note".toList
  | .Bookmark => "Bookmark".toList

/-- `EntryType::from_str` (lines 60-71): exact match against the three
    literal labels, anything else is `InvalidKind(s)`. -/
def EntryType.fromStr (s : List Char) : Except ParseError EntryType :=
  if s = "Highlight".toList then .ok .Highlight
  else if s = "Note".toList then .ok .Note
  else if s = "Bookmark".toList then .ok .Bookmark
  else .error (.InvalidKind s)

/-- `struct Location(u64, u64)` is modelled as a pair of `Nat`s (both always
    `< 2^64` since they come out of `parseU64`). -/
def Location := Nat × Nat
deriving instance DecidableEq for Location

/-- The `map(..).collect::<Result<Vec<u64>, _>>()` step of
    `Location::from_str` (lines 20-26): all parts must parse (the per-part
    error payload is discarded by the caller, so plain `Option` suffices). -/
def collectU64 : List (List Char) → Option (List Nat)
  | [] => some []
  | p :: ps =>
    match parseU64 p with
    | none => none
    | some v =>
      match collectU64 ps with
      | none => none
      | some vs => some (v :: vs)

/-- `Location::from_str` (lines 19-36): split on `'-'`, parse every part as
    `u64` (any per-part failure is replaced by `InvalidLocation(s)` for the
    whole input), then require exactly one or two parts. -/
def Location.fromStr (s : List Char) : Except ParseError Location :=
  match collectU64 (splitOnChar '-' s) with
  | some values =>
    match values with
    | [a, b] => .ok (a, b)
    | [a] => .ok (a, a)
    | _ => .error (.InvalidLocation s)
  | none => .error (.InvalidLocation s)

/-- `Page::from_str` (lines 45-50). -/
def Page.fromStr (s : List Char) : Except ParseError Nat :=
  match parseU64 s with
  | some v => .ok v
  | none => .error (.InvalidPage s)

/-- `chrono::NaiveDateTime` restricted to what the parser produces: a
    calendar timestamp with second precision and no timezone.  `hour` is the
    24-hour clock value. -/
structure NaiveDateTime where
  year : Nat
  month : Nat
  day : Nat
  hour : Nat
  minute : Nat
  second : Nat
deriving DecidableEq

/-- `struct Entry` (lines 73-81). -/
structure Entry where
  title : List Char
  author : List Char
  kind : EntryType
  page : Option Nat
  location : Location
  creation_date : NaiveDateTime
  text : List Char
deriving DecidableEq

/-! ### The chrono date parser

`NaiveDateTime::parse_from_str(s, "%A, %B %-e, %Y %-l:%M:%S %p")` (line 179)
is modelled for the canonical rendering the device produces: full weekday
name, `", "`, full month name, `" "`, day (1-2 digits), `", "`, 4-digit
year, `" "`, 12-hour clock hour (1-2 digits), `":"`, minute, `":"`, second,
`" "`, `"AM"`/`"PM"`, end of input.  chrono validates the date (month
lengths, leap years) and checks the parsed weekday for consistency with the
date; both checks are modelled.  chrono's additional parsing tolerances
(case-insensitive and abbreviated names, elastic whitespace, year 0,
leap-second `60`) are not modelled: the model accepts a subset of what
chrono accepts and agrees with chrono on every string it accepts, which is
sound for every claim below (the model only ever appears in positive
parsing hypotheses and on concrete canonical inputs). -/

/-- Full weekday names with chrono's weekday numbering re-based so that
    `0 = Sunday`, matching `dayOfWeek` below. -/
def weekdayTable : List (List Char × Nat) :=
  [("Sunday".toList, 0), ("Monday".toList, 1), ("Tuesday".toList, 2),
   ("Wednesday".toList, 3), ("Thursday".toList, 4), ("Friday".toList, 5),
   ("Saturday".toList, 6)]

/-- Full month names and their numbers. -/
def monthTable : List (List Char × Nat) :=
  [("January".toList, 1), ("February".toList, 2), ("March".toList, 3),
   ("April".toList, 4), ("May".toList, 5), ("June".toList, 6),
   ("July".toList, 7), ("August".toList, 8), ("September".toList, 9),
   ("October".toList, 10), ("November".toList, 11), ("December".toList, 12)]

/-- Match a leading name from a table, returning its value and the rest of
    the input. -/
def matchTable : List (List Char × Nat) → List Char → Option (Nat × List Char)
  | [], _ => none
  | (name, v) :: rest, s =>
    if startsWith name s then some (v, s.drop name.length)
    else matchTable rest s

/-- Proleptic Gregorian leap year. -/
def isLeap (y : Nat) : Bool :=
  (y % 4 == 0 && y % 100 != 0) || y % 400 == 0

/-- Days in a month of the proleptic Gregorian calendar. -/
def daysInMonth (y m : Nat) : Nat :=
  if m == 2 then (if isLeap y then 29 else 28)
  else if m == 4 || m == 6 || m == 9 || m == 11 then 30
  else 31

/-- Day of week (`0 = Sunday`) by Sakamoto's method, for years `≥ 1`. -/
def dayOfWeek (y m d : Nat) : Nat :=
  let t := [0, 3, 2, 5, 0, 3, 5, 1, 4, 6, 2, 4]
  let y2 := if m < 3 then y - 1 else y
  (y2 + y2 / 4 - y2 / 100 + y2 / 400 + t.getD (m - 1) 0 + d) % 7

/-- Convert a 12-hour clock reading and an AM/PM flag (`true` = PM) to the
    24-hour clock. -/
def to24Hour (h : Nat) (pm : Bool) : Nat :=
  if pm then (if h == 12 then 12 else h + 12)
  else (if h == 12 then 0 else h)

/-- The chrono date parser model described above; `none` models a chrono
    `ParseError` (mapped to `InvalidDate` by the caller). -/
def parseChronoDate (s : List Char) : Option NaiveDateTime :=
  match matchTable weekdayTable s with
  | none => none
  | some (wd, s1) =>
    match s1 with
    | ',' :: ' ' :: s2 =>
      match matchTable monthTable s2 with
      | none => none
      | some (mon, s3) =>
        match s3 with
        | ' ' :: s4 =>
          match takeUpTo 2 Char.isDigit s4 with
          | ([], _) => none
          | (dds, s5) =>
            match s5 with
            | ',' :: ' ' :: s6 =>
              match takeUpTo 4 Char.isDigit s6 with
              | ([], _) => none
              | (yds, s7) =>
                match s7 with
                | ' ' :: s8 =>
                  match takeUpTo 2 Char.isDigit s8 with
                  | ([], _) => none
                  | (hds, s9) =>
                    match s9 with
                    | ':' :: s10 =>
                      match takeUpTo 2 Char.isDigit s10 with
                      | ([], _) => none
                      | (mds, s11) =>
                        match s11 with
                        | ':' :: s12 =>
                          match takeUpTo 2 Char.isDigit s12 with
                          | ([], _) => none
                          | (sds, s13) =>
                            match s13 with
                            | ' ' :: 'A' :: 'M' :: [] => mkDate wd mon dds yds hds mds sds false
                            | ' ' :: 'P' :: 'M' :: [] => mkDate wd mon dds yds hds mds sds true
                            | _ => none
                        | _ => none
                    | _ => none
                | _ => none
            | _ => none
        | _ => none
    | _ => none
where
  /-- Assemble and validate the parsed fields. -/
  mkDate (wd mon : Nat) (dds yds hds mds sds : List Char) (pm : Bool) :
      Option NaiveDateTime :=
    let day := digitsVal 0 dds
    let year := digitsVal 0 yds
    let hour12 := digitsVal 0 hds
    let minute := digitsVal 0 mds
    let second := digitsVal 0 sds
    if year == 0 then none
    else if day == 0 || daysInMonth year mon < day then none
    else if hour12 == 0 || 12 < hour12 then none
    else if 59 < minute || 59 < second then none
    else if dayOfWeek year mon day != wd then none
    else some ⟨year, mon, day, to24Hour hour12 pm, minute, second⟩

/-! ### The title-line regex

`Regex::new(r"^(.*) \((.*)\)$")` applied via `.captures(..)` (lines
143-144).  Since the pattern is anchored at both ends and every literal in
it (`' '`, `'('`, `')'`) differs from `'\n'` while `.` matches anything but
`'\n'`, a line matches iff it contains no newline, ends with `')'`, and its
remainder contains `" ("` somewhere.  Greedy matching makes capture 1 the
longest such prefix, i.e. the split happens at the LAST occurrence of
`" ("` in the line with the final `')'` removed. -/

/-- Split at the last occurrence of the two-character sequence `[c1, c2]`:
    returns `(before, after)` for the right-most occurrence, or `none`.
    Occurrences further right are preferred because the recursion consults
    the tail first. -/
def lastSplitTwo (c1 c2 : Char) : List Char → Option (List Char × List Char)
  | [] => none
  | a :: rest =>
    match lastSplitTwo c1 c2 rest with
    | some (pre, post) => some (a :: pre, post)
    | none =>
      match rest with
      | b :: rest2 => if a == c1 && b == c2 then some ([], rest2) else none
      | [] => none

/-- Capture groups of the title-line regex, `none` when the regex does not
    match. -/
def titleCaptures (line : List Char) : Option (List Char × List Char) :=
  if line.contains '\n' then none
  else if line.getLast? == some ')' then lastSplitTwo ' ' '(' line.dropLast
  else none

/-! ### The metadata-line regex

`Regex::new(r"^- Your (.*) on( page ([0-9]+) \|)? Location ([0-9\-]+) \| Added on (.*)$")`
applied via `.captures(..)` (lines 146-151).  As above a `'\n'` anywhere
kills the match.  After the literal prefix `"- Your "`, the greedy `(.*)`
for the kind takes the longest prefix after which `" on"` followed by the
rest of the pattern matches; inside the rest, the optional page clause is
preferred present (greedy `?`), and the bounded character classes
`[0-9]+` / `[0-9\-]+` are forced to their maximal runs: a shorter run would
have to be followed by `' '` or `'|'`, but the next character of a
shortened run is still in the class, so backtracking inside a run can never
produce a different match.  The rest-matcher is therefore deterministic and
the whole match is "last position of `\" on\"` whose remainder the
rest-matcher accepts". -/

/-- Character class `[0-9\-]` of the location capture. -/
def isLocChar (c : Char) : Bool := c.isDigit || c == '-'

/-- Matcher for `" Location ([0-9\-]+) \| Added on (.*)$"`: returns the
    location and date captures. -/
def locDate (s : List Char) : Option (List Char × List Char) :=
  if startsWith " Location ".toList s then
    let rest := s.drop 10
    match spanClass isLocChar rest with
    | ([], _) => none
    | (l, rest2) =>
      if startsWith " | Added on ".toList rest2 then
        some (l, rest2.drop 12)
      else none
  else none

/-- Matcher for the optional page clause `"( page ([0-9]+) \|)?"` in its
    "present" alternative: returns the digit capture and the remainder. -/
def pageClause (s : List Char) : Option (List Char × List Char) :=
  if startsWith " page ".toList s then
    let rest := s.drop 6
    match spanClass Char.isDigit rest with
    | ([], _) => none
    | (d, rest2) =>
      if startsWith " |".toList rest2 then some (d, rest2.drop 2)
      else none
  else none

/-- Matcher for everything after the kind capture's `" on"`: the optional
    page clause (preferred present), then location and date.  Returns
    captures 3 (optional page digits), 4 (location) and 5 (date). -/
def restMatch (s : List Char) : Option (Option (List Char) × List Char × List Char) :=
  match pageClause s with
  | some (d, tail) =>
    match locDate tail with
    | some (l, dt) => some (some d, l, dt)
    | none =>
      match locDate s with
      | some (l, dt) => some (none, l, dt)
      | none => none
  | none =>
    match locDate s with
    | some (l, dt) => some (none, l, dt)
    | none => none

/-- Split the part after `"- Your "` at the LAST occurrence of `" on"`
    whose remainder `restMatch` accepts (greedy `(.*)` for the kind):
    returns the kind capture and the `restMatch` captures.  Later
    occurrences are preferred because the recursion consults the tail
    first. -/
def kindSplit : List Char → Option (List Char × Option (List Char) × List Char × List Char)
  | [] => none
  | a :: rest =>
    match kindSplit rest with
    | some (k, r) => some (a :: k, r)
    | none =>
      if startsWith " on".toList (a :: rest) then
        match restMatch ((a :: rest).drop 3) with
        | some r => some ([], r)
        | none => none
      else none

/-- Capture groups (1: kind, 3: optional page digits, 4: location, 5: date)
    of the metadata-line regex, `none` when the regex does not match. -/
def metaCaptures (line : List Char) :
    Option (List Char × Option (List Char) × List Char × List Char) :=
  if line.contains '\n' then none
  else if startsWith "- Your ".toList line then kindSplit (line.drop 7)
  else none

/-! ### Entry extraction and the orchestrator -/

/-- The optional-page processing step of `parse_entry` (lines 168-171): a
    present page capture must parse, an absent one yields `None`. -/
def pageStep (pageCap : Option (List Char)) : Except ParseError (Option Nat) :=
  match pageCap with
  | some p => (Page.fromStr p).map some
  | none => .ok none

/-- `parse_entry` (lines 142-195).  `none` models a panic: the two
    `.unwrap()` calls on regex captures, and the indexing `lines[0]`,
    `lines[1]`, `lines[3]`.  Note that because a successful match of either
    regex always populates its mandatory capture groups, the source's
    `TitleNotFound`, `AuthorNotFound`, `KindNotFound`, `LocationNotFound`
    and `DateNotFound` arms (lines 153-182, `None =>` cases) are dead code:
    by the time `captures.get(i)` is consulted the `unwrap` has already
    succeeded, so those errors can never be produced.  Field processing
    happens in source order: kind, page, location, date, then the `lines[3]`
    read at line 184. -/
def parse_entry (lines : List (List Char)) : Option (Except ParseError Entry) :=
  match lines.get? 0 with
  | none => none
  | some l0 =>
    match titleCaptures l0 with
    | none => none
    | some (titleCap, authorCap) =>
      match lines.get? 1 with
      | none => none
      | some l1 =>
        match metaCaptures l1 with
        | none => none
        | some (kindCap, pageCap, locCap, dateCap) =>
          match EntryType.fromStr kindCap with
          | .error e => some (.error e)
          | .ok kind =>
            match pageStep pageCap with
            | .error e => some (.error e)
            | .ok page =>
              match Location.fromStr locCap with
              | .error e => some (.error e)
              | .ok loc =>
                match parseChronoDate dateCap with
                | none => some (.error (.InvalidDate dateCap))
                | some date =>
                  match lines.get? 3 with
                  | none => none
                  | some l3 =>
                    some (.ok ⟨titleCap, authorCap, kind, page, loc, date, l3⟩)

/-- The separator line: ten `'='` characters. -/
def SEPARATOR : List Char := "==========".toList

/-- The block segmenter of `parse_lines` (lines 133-137):
    `group_by(|line| line != SEPARATOR)` followed by `filter(|(id, _)| *id)`
    keeps the maximal runs of consecutive non-separator lines, in order;
    separator runs are dropped and no empty group is ever produced. -/
def segmentsAux (cur : List (List Char)) : List (List Char) → List (List (List Char))
  | [] => if cur.isEmpty then [] else [cur.reverse]
  | l :: rest =>
    if l = SEPARATOR then
      if cur.isEmpty then segmentsAux [] rest
      else cur.reverse :: segmentsAux [] rest
    else segmentsAux (l :: cur) rest

/-- Groups of consecutive non-separator lines, in file order. -/
def segments (lines : List (List Char)) : List (List (List Char)) :=
  segmentsAux [] lines

/-- The `map(parse_entry).collect::<Result<Vec<_>, _>>()` step of
    `parse_lines` (lines 138-139): groups are extracted left to right; the
    first panic or error aborts, a panic taking effect at the group where it
    occurs. -/
def collectEntries : List (List (List Char)) → Option (Except ParseError (List Entry))
  | [] => some (.ok [])
  | g :: gs =>
    match parse_entry g with
    | none => none
    | some (.error e) => some (.error e)
    | some (.ok ent) =>
      match collectEntries gs with
      | none => none
      | some (.error e) => some (.error e)
      | some (.ok es) => some (.ok (ent :: es))

/-- `parse_lines` (lines 131-140) after the `flatten()` step, i.e. acting on
    the successfully read lines. -/
def parse_lines (lines : List (List Char)) : Option (Except ParseError (List Entry)) :=
  collectEntries (segments lines)

/-- The `flatten()` step of `parse_lines` (line 134) on the raw
    `io::Result<String>` stream: `Iterator::flatten` on an iterator of
    `Result`s yields the `Ok` payloads and silently drops the `Err` items. -/
def flattenOk : List (Except Unit (List Char)) → List (List Char)
  | [] => []
  | .ok l :: rest => l :: flattenOk rest
  | .error _ :: rest => flattenOk rest

/-- `parse_lines` (lines 131-140) on the raw line stream, errors included. -/
def parse_lines_raw (stream : List (Except Unit (List Char))) :
    Option (Except ParseError (List Entry)) :=
  collectEntries (segments (flattenOk stream))

/-! ### Synthetic-input constructors and spec-side characterizations

These definitions follow the wording of the claims (round-trip construction
of lines from field substrings in C2, the split-based characterization of
`Location::from_str` in C6); they are compared against the source-derived
definitions above. -/

/-- A title line built from a title and an author substring, per the §6
    title-line grammar `^(.*) \((.*)\)$`. -/
def titleLine (t a : List Char) : List Char :=
  t ++ ' ' :: '(' :: (a ++ [')'])

/-- The optional page clause of a metadata line. -/
def pageSeg : Option (List Char) → List Char
  | none => []
  | some d => " page ".toList ++ d ++ " |".toList

/-- A metadata line built from kind, optional page digits, location and date
    substrings, per the §6 metadata-line grammar. -/
def metaLine (k : EntryType) (p : Option (List Char)) (loc d : List Char) : List Char :=
  "- Your ".toList ++ (k.label ++ (" on".toList ++ (pageSeg p ++
    (" Location ".toList ++ (loc ++ (" | Added on ".toList ++ d))))))

/-- Modelled from the amended claim C6: splitting on `'-'` must yield one or
    two parts, each a valid u64 numeral; a single part denotes the range
    `(n, n)`, two parts denote `(n, m)`. -/
def locationSpec (s : List Char) : Option (Nat × Nat) :=
  match splitOnChar '-' s with
  | [p] => if u64Str p then some (u64Val p, u64Val p) else none
  | [p, q] => if u64Str p && u64Str q then some (u64Val p, u64Val q) else none
  | _ => none

/-! ## Theorems -/

/-! ### Helper lemmas about the segmenter -/

theorem segmentsAux_all_sep (lines : List (List Char))
    (h : ∀ l ∈ lines, l = SEPARATOR) : segmentsAux [] lines = [] := by
  induction lines with
  | nil => rfl
  | cons l rest ih =>
    have hl : l = SEPARATOR := h l (List.mem_cons_self l rest)
    have hrest : ∀ l' ∈ rest, l' = SEPARATOR := fun l' hl' => h l' (List.mem_cons_of_mem l hl')
    simp [segmentsAux, hl, ih hrest]

/-! ### C3 -/

/-- C3: parsing the five-line input stream consisting of the title line
    `"Title (Author)"`, the highlight metadata line, a blank line, the body
    text and a separator yields exactly one `Entry` with title `"Title"`,
    author `"Author"`, kind `Highlight`, page `Some(5)`, location
    `(100, 105)`, text `"Some highlighted text."`, and creation date
    `2024-03-05 19:42:10`. -/
theorem c3_concrete_pipeline :
    parse_lines ["Title (Author)".toList,
      "- Your Highlight on page 5 | Location 100-105 | Added on Tuesday, March 5, 2024 7:42:10 PM".toList,
      [], "Some highlighted text.".toList, "==========".toList] =
    some (.ok [⟨"Title".toList, "Author".toList, .Highlight, some 5, (100, 105),
      ⟨2024, 3, 5, 19, 42, 10⟩, "Some highlighted text.".toList⟩]) := by
  decide

/-! ### C9 -/

/-- C9: an input stream consisting solely of separator lines (in particular
    containing no content lines) parses successfully to the empty entry
    sequence, not to an error. -/
theorem c9_separators_only (lines : List (List Char))
    (h : ∀ l ∈ lines, l = SEPARATOR) :
    parse_lines lines = some (.ok []) := by
  unfold parse_lines segments
  rw [segmentsAux_all_sep lines h]
  rfl

/-- Witness for C9 at a concrete two-separator stream. -/
theorem c9_separators_only_witness :
    parse_lines ["==========".toList, "==========".toList] = some (.ok []) :=
  c9_separators_only _ (by decide)

/-! ### C10 -/

/-- C10: for any two line groups of length at least four that agree on lines
    0, 1 and 3, `parse_entry` produces identical results: line 2 and lines
    past index 3 never influence the outcome. -/
theorem c10_depends_only_on_lines_0_1_3 (g1 g2 : List (List Char))
    (hl1 : 4 ≤ g1.length) (hl2 : 4 ≤ g2.length)
    (e0 : g1.get? 0 = g2.get? 0) (e1 : g1.get? 1 = g2.get? 1)
    (e3 : g1.get? 3 = g2.get? 3) :
    parse_entry g1 = parse_entry g2 := by
  unfold parse_entry
  rw [e0, e1, e3]

/-- Witness for C10: two concrete groups differing in line 2 and in the
    lines past index 3 extract identically. -/
theorem c10_depends_only_on_lines_0_1_3_witness :
    parse_entry ["Title (Author)".toList,
      "- Your Highlight on page 5 | Location 100-105 | Added on Tuesday, March 5, 2024 7:42:10 PM".toList,
      [], "Some highlighted text.".toList] =
    parse_entry ["Title (Author)".toList,
      "- Your Highlight on page 5 | Location 100-105 | Added on Tuesday, March 5, 2024 7:42:10 PM".toList,
      "this line is ignored".toList, "Some highlighted text.".toList,
      "so is this one".toList] :=
  c10_depends_only_on_lines_0_1_3 _ _ (by decide) (by decide)
    (by decide) (by decide) (by decide)

/-! ### C4 -/

/-- C4 (code bug): on a non-empty line group whose first line does not match
    the title-line regex, `parse_entry` panics on the `.unwrap()` at line
    144 (modelled by `none`): it does not return `TitleNotFound` or
    `AuthorNotFound` (those arms are dead code), contrary to the claim. -/
theorem c4_unmatched_title_panics (lines : List (List Char)) (l0 : List Char)
    (h0 : lines.get? 0 = some l0) (h1 : titleCaptures l0 = none) :
    parse_entry lines = none := by
  cases lines with
  | nil => simp [List.get?] at h0
  | cons a rest =>
    simp only [List.get?] at h0
    cases h0
    simp [parse_entry, List.get?, h1]

/-- Witness for C4: a group whose first line has no trailing parenthetical
    makes `parse_entry` panic. -/
theorem c4_unmatched_title_panics_witness :
    titleCaptures "No parenthetical here".toList = none ∧
    parse_entry ["No parenthetical here".toList,
      "- Your Highlight on page 5 | Location 100-105 | Added on Tuesday, March 5, 2024 7:42:10 PM".toList,
      [], "text".toList] = none :=
  ⟨by decide,
   c4_unmatched_title_panics
     ["No parenthetical here".toList,
      "- Your Highlight on page 5 | Location 100-105 | Added on Tuesday, March 5, 2024 7:42:10 PM".toList,
      [], "text".toList]
     "No parenthetical here".toList (by decide) (by decide)⟩

/-! ### C5 -/

/-- C5 (code bug): a three-line group (title, metadata, blank line, no
    fourth line) whose lines are well-formed — both regexes match and every
    field parses — makes `parse_entry` panic on the `lines[3]` indexing at
    line 184 (modelled by `none`), instead of succeeding with empty text as
    the claim states. -/
theorem c5_three_line_group_panics (l0 l1 l2 : List Char)
    (t1 t2 kc : List Char) (pc : Option (List Char)) (lc dc : List Char)
    (kv : EntryType) (pv : Option Nat) (lv : Location) (dt : NaiveDateTime)
    (h0 : titleCaptures l0 = some (t1, t2))
    (h1 : metaCaptures l1 = some (kc, pc, lc, dc))
    (hk : EntryType.fromStr kc = .ok kv)
    (hp : pageStep pc = .ok pv)
    (hl : Location.fromStr lc = .ok lv)
    (hd : parseChronoDate dc = some dt) :
    parse_entry [l0, l1, l2] = none := by
  simp [parse_entry, List.get?, h0, h1, hk, hp, hl, hd]

/-- Witness for C5: a well-formed three-line bookmark group (the shape real
    bookmark entries take) makes `parse_entry` panic. -/
theorem c5_three_line_group_panics_witness :
    titleCaptures "Title (Author)".toList =
      some ("Title".toList, "Author".toList) ∧
    parse_entry ["Title (Author)".toList,
      "- Your Bookmark on Location 24 | Added on Tuesday, March 5, 2024 7:42:10 PM".toList,
      []] = none :=
  ⟨by decide,
   c5_three_line_group_panics "Title (Author)".toList
     "- Your Bookmark on Location 24 | Added on Tuesday, March 5, 2024 7:42:10 PM".toList
     [] "Title".toList "Author".toList "Bookmark".toList none "24".toList
     "Tuesday, March 5, 2024 7:42:10 PM".toList .Bookmark none (24, 24)
     ⟨2024, 3, 5, 19, 42, 10⟩ (by decide) (by decide) (by decide) (by decide)
     (by decide) (by decide)⟩

/-! ### Helper lemmas about the orchestrator fold -/

theorem collectEntries_ok_iff (gs : List (List (List Char))) :
    (∃ es, collectEntries gs = some (.ok es)) ↔
      ∀ g ∈ gs, ∃ ent, parse_entry g = some (.ok ent) := by
  induction gs with
  | nil => simp [collectEntries]
  | cons g gs ih =>
    constructor
    · rintro ⟨es, hes⟩
      cases hpe : parse_entry g with
      | none => simp [collectEntries, hpe] at hes
      | some r =>
        cases r with
        | error e => simp [collectEntries, hpe] at hes
        | ok ent =>
          intro g' hg'
          rcases List.mem_cons.mp hg' with h | h
          · exact ⟨ent, h ▸ hpe⟩
          · refine ih.mp ?_ g' h
            cases hcs : collectEntries gs with
            | none => simp [collectEntries, hpe, hcs] at hes
            | some r2 =>
              cases r2 with
              | error e => simp [collectEntries, hpe, hcs] at hes
              | ok es2 => exact ⟨es2, rfl⟩
    · intro h
      obtain ⟨ent, hent⟩ := h g (List.mem_cons_self g gs)
      obtain ⟨es, hes⟩ := ih.mpr (fun g' hg' => h g' (List.mem_cons_of_mem g hg'))
      exact ⟨ent :: es, by simp [collectEntries, hent, hes]⟩

theorem collectEntries_ok_map (gs : List (List (List Char))) (es : List Entry)
    (h : collectEntries gs = some (.ok es)) :
    gs.map parse_entry = es.map (fun e => some (.ok e)) := by
  induction gs generalizing es with
  | nil =>
    simp [collectEntries] at h
    subst h
    rfl
  | cons g gs ih =>
    cases hpe : parse_entry g with
    | none => simp [collectEntries, hpe] at h
    | some r =>
      cases r with
      | error e => simp [collectEntries, hpe] at h
      | ok ent =>
        cases hcs : collectEntries gs with
        | none => simp [collectEntries, hpe, hcs] at h
        | some r2 =>
          cases r2 with
          | error e => simp [collectEntries, hpe, hcs] at h
          | ok es2 =>
            have hes : es = ent :: es2 := by
              simp [collectEntries, hpe, hcs] at h
              exact h.symm
            subst hes
            simp [hpe, ih es2 hcs]

theorem collectEntries_first_error (pre : List (List (List Char)))
    (g : List (List Char)) (rest : List (List (List Char))) (e : ParseError)
    (hpre : ∀ g' ∈ pre, ∃ ent, parse_entry g' = some (.ok ent))
    (hg : parse_entry g = some (.error e)) :
    collectEntries (pre ++ g :: rest) = some (.error e) := by
  induction pre with
  | nil => simp [collectEntries, hg]
  | cons g0 pre ih =>
    obtain ⟨ent, hent⟩ := hpre g0 (List.mem_cons_self g0 pre)
    have hrest := ih (fun g' h => hpre g' (List.mem_cons_of_mem g0 h))
    simp [collectEntries, hent, hrest]

/-! ### C1 -/

/-- C1: `parse_lines` returns an entry list exactly when every line group
    extracts successfully, and the returned list is the in-order sequence of
    extracted entries; when the groups up to some group extract successfully
    and that group fails with an error, the overall result is exactly that
    first error, with no entries accompanying it (the result type carries
    either entries or an error, never both). -/
theorem c1_orchestrator_all_or_first_error (lines : List (List Char)) :
    ((∃ es, parse_lines lines = some (.ok es)) ↔
      ∀ g ∈ segments lines, ∃ ent, parse_entry g = some (.ok ent)) ∧
    (∀ es, parse_lines lines = some (.ok es) →
      (segments lines).map parse_entry = es.map (fun e => some (.ok e))) ∧
    (∀ pre g rest e, segments lines = pre ++ g :: rest →
      (∀ g' ∈ pre, ∃ ent, parse_entry g' = some (.ok ent)) →
      parse_entry g = some (.error e) →
      parse_lines lines = some (.error e)) := by
  refine ⟨collectEntries_ok_iff _, fun es h => collectEntries_ok_map _ es h, ?_⟩
  intro pre g rest e hseg hpre hg
  unfold parse_lines
  rw [hseg]
  exact collectEntries_first_error pre g rest e hpre hg

/-- Witness for C1: a stream whose first group is well-formed and whose
    second group carries the unrecognized kind label `"Underline"` yields
    exactly `InvalidKind("Underline")` and zero entries. -/
theorem c1_orchestrator_all_or_first_error_witness :
    parse_lines ["Title (Author)".toList,
      "- Your Highlight on page 5 | Location 100-105 | Added on Tuesday, March 5, 2024 7:42:10 PM".toList,
      [], "text".toList, "==========".toList,
      "Title2 (Author2)".toList,
      "- Your Underline on page 5 | Location 100-105 | Added on Tuesday, March 5, 2024 7:42:10 PM".toList,
      [], "x".toList, "==========".toList] =
    some (.error (.InvalidKind "Underline".toList)) :=
  (c1_orchestrator_all_or_first_error _).2.2
    [["Title (Author)".toList,
      "- Your Highlight on page 5 | Location 100-105 | Added on Tuesday, March 5, 2024 7:42:10 PM".toList,
      [], "text".toList]]
    ["Title2 (Author2)".toList,
     "- Your Underline on page 5 | Location 100-105 | Added on Tuesday, March 5, 2024 7:42:10 PM".toList,
     [], "x".toList]
    [] (.InvalidKind "Underline".toList) (by decide)
    (by
      intro g' hg'
      simp only [List.mem_singleton] at hg'
      subst hg'
      exact ⟨⟨"Title".toList, "Author".toList, .Highlight, some 5, (100, 105),
        ⟨2024, 3, 5, 19, 42, 10⟩, "text".toList⟩, by decide⟩)
    (by decide)

/-! ### C8 -/

theorem flattenOk_skips_error (pre post : List (Except Unit (List Char))) :
    flattenOk (pre ++ .error () :: post) = flattenOk (pre ++ post) := by
  induction pre with
  | nil => rfl
  | cons x pre ih => cases x <;> simp [flattenOk, ih]

/-- C8 (amended): a line-read failure mid-stream is NOT surfaced: the
    `flatten()` step silently drops the unreadable line and parsing
    continues with the remaining lines exactly as if the failed read had
    not happened; only the top-level file-open failure is fatal. -/
theorem c8_read_error_silently_skipped (pre post : List (Except Unit (List Char))) :
    parse_lines_raw (pre ++ .error () :: post) = parse_lines_raw (pre ++ post) := by
  unfold parse_lines_raw
  rw [flattenOk_skips_error]

/-- Counterexample to C8 as stated: a stream with an I/O failure in the
    middle parses to a successful entry whose body text comes from a line
    READ AFTER the failure — the failure is neither surfaced in the result
    nor does it stop consumption of the stream. -/
theorem c8_counterexample :
    parse_lines_raw [.ok "Title (Author)".toList,
      .error (),
      .ok "- Your Highlight on page 5 | Location 100-105 | Added on Tuesday, March 5, 2024 7:42:10 PM".toList,
      .ok [], .ok "Some highlighted text.".toList, .ok "==========".toList] =
    some (.ok [⟨"Title".toList, "Author".toList, .Highlight, some 5, (100, 105),
      ⟨2024, 3, 5, 19, 42, 10⟩, "Some highlighted text.".toList⟩]) := by
  decide

/-! ### Helper lemmas about u64 parsing -/

theorem digitsVal_ge (l : List Char) (acc : Nat) : acc ≤ digitsVal acc l := by
  induction l generalizing acc with
  | nil => exact Nat.le_refl acc
  | cons c rest ih =>
    calc acc ≤ acc * 10 + (c.toNat - 48) := by
          calc acc = acc * 1 := (Nat.mul_one acc).symm
          _ ≤ acc * 10 := Nat.mul_le_mul_left acc (by norm_num)
          _ ≤ acc * 10 + (c.toNat - 48) := Nat.le_add_right _ _
    _ ≤ digitsVal (acc * 10 + (c.toNat - 48)) rest := ih _
    _ = digitsVal acc (c :: rest) := rfl

theorem u64Loop_some (l : List Char) (acc : Nat)
    (hall : l.all Char.isDigit = true) (hlt : digitsVal acc l < U64BOUND) :
    u64Loop acc l = some (digitsVal acc l) := by
  induction l generalizing acc with
  | nil => rfl
  | cons c rest ih =>
    rw [List.all_cons, Bool.and_eq_true] at hall
    have hd : digitsVal acc (c :: rest) = digitsVal (acc * 10 + (c.toNat - 48)) rest := rfl
    have hacc2 : acc * 10 + (c.toNat - 48) < U64BOUND :=
      Nat.lt_of_le_of_lt (digitsVal_ge rest _) (hd ▸ hlt)
    simp only [u64Loop, hall.1, if_true, if_pos hacc2]
    exact ih _ hall.2 (hd ▸ hlt)

theorem u64Loop_none (l : List Char) (acc : Nat) (hacc : acc < U64BOUND)
    (h : ¬(l.all Char.isDigit = true ∧ digitsVal acc l < U64BOUND)) :
    u64Loop acc l = none := by
  induction l generalizing acc with
  | nil => exact absurd ⟨rfl, hacc⟩ h
  | cons c rest ih =>
    by_cases hc : c.isDigit = true
    · by_cases hb : acc * 10 + (c.toNat - 48) < U64BOUND
      · simp only [u64Loop, hc, if_true, if_pos hb]
        refine ih _ hb (fun hcon => h ⟨?_, ?_⟩)
        · rw [List.all_cons, Bool.and_eq_true]
          exact ⟨hc, hcon.1⟩
        · exact hcon.2
      · simp only [u64Loop, hc, if_true, if_neg hb]
    · simp only [u64Loop, hc, if_false]
      simp [hc]

theorem parseU64_eq_spec (s : List Char) :
    parseU64 s = if u64Str s then some (u64Val s) else none := by
  cases hd : stripPlus s with
  | nil =>
    have hu : u64Str s = false := by simp [u64Str, hd]
    simp [parseU64, hd, hu]
  | cons c cs =>
    by_cases hall : (c :: cs).all Char.isDigit = true
    · by_cases hlt : digitsVal 0 (c :: cs) < U64BOUND
      · have hu : u64Str s = true := by simp [u64Str, hd, hall, hlt]
        have hl := u64Loop_some (c :: cs) 0 hall hlt
        simp [parseU64, hd, hu, u64Val, hl]
      · have hu : u64Str s = false := by simp [u64Str, hd, hlt]
        have hl := u64Loop_none (c :: cs) 0 (by decide) (fun hcon => hlt hcon.2)
        simp [parseU64, hd, hu, hl]
    · have hu : u64Str s = false := by simp [u64Str, hd, hall]
      have hl := u64Loop_none (c :: cs) 0 (by decide) (fun hcon => hall hcon.1)
      simp [parseU64, hd, hu, hl]

theorem collectU64_length (ps : List (List Char)) (vs : List Nat)
    (h : collectU64 ps = some vs) : vs.length = ps.length := by
  induction ps generalizing vs with
  | nil =>
    simp [collectU64] at h
    simp [h.symm]
  | cons p ps ih =>
    cases hp : parseU64 p with
    | none => simp [collectU64, hp] at h
    | some v =>
      cases hc : collectU64 ps with
      | none => simp [collectU64, hp, hc] at h
      | some vs2 =>
        simp [collectU64, hp, hc] at h
        subst h
        simp [ih vs2 hc]

/-! ### C7 -/

/-- C7 (amended): `Page::from_str` succeeds with the denoted number exactly
    when the input is a valid u64 numeral — an optional leading `'+'`
    followed by one or more decimal digits whose value is below `2^64` —
    and fails with `InvalidPage(s)` for every other string.  (The claim as
    stated used "non-empty string of decimal digits": that is refuted both
    by `"+7"`, which succeeds, and by 20-digit overflowing numerals, which
    fail.) -/
theorem c7_page_amended (s : List Char) :
    (∀ n, Page.fromStr s = .ok n ↔ (u64Str s = true ∧ n = u64Val s)) ∧
    (u64Str s = false → Page.fromStr s = .error (.InvalidPage s)) := by
  unfold Page.fromStr
  rw [parseU64_eq_spec]
  by_cases h : u64Str s <;> simp [h]
  exact fun n => eq_comm

/-- Witness for C7 at the concrete numeral `"42"`. -/
theorem c7_page_amended_witness :
    Page.fromStr "42".toList = .ok 42 :=
  ((c7_page_amended "42".toList).1 42).mpr ⟨by decide, by decide⟩

/-- Counterexample to C7 as stated: `"+7"` is not a string of decimal
    digits, yet `Page::from_str` succeeds on it (Rust's `u64::from_str`
    accepts a leading `'+'`). -/
theorem c7_counterexample :
    Page.fromStr "+7".toList = .ok 7 ∧ isDigitStr "+7".toList = false := by
  decide

/-! ### C6 -/

/-- C6 (amended): `Location::from_str` succeeds exactly when splitting the
    input on `'-'` yields one or two parts, each a valid u64 numeral (an
    optional leading `'+'` followed by decimal digits with value below
    `2^64`); one part `N` denotes `(N, N)`, two parts `N`, `M` denote
    `(N, M)`; every other string fails with `InvalidLocation`.  In
    particular `"10"` parses to `(10, 10)`, `"10-20"` to `(10, 20)`, and
    `"10-20-30"` and `"abc"` both fail with `InvalidLocation`.  (The claim
    as stated called the parts "unsigned integers": that is refuted by
    20-digit overflowing numerals, which are unsigned integers but fail.) -/
theorem c6_location_amended (s : List Char) :
    (∀ v, Location.fromStr s = .ok v ↔ locationSpec s = some v) ∧
    (locationSpec s = none → Location.fromStr s = .error (.InvalidLocation s)) ∧
    Location.fromStr "10".toList = .ok (10, 10) ∧
    Location.fromStr "10-20".toList = .ok (10, 20) ∧
    Location.fromStr "10-20-30".toList =
      .error (.InvalidLocation "10-20-30".toList) ∧
    Location.fromStr "abc".toList = .error (.InvalidLocation "abc".toList) := by
  refine ⟨?_, ?_, by decide, by decide, by decide, by decide⟩ <;>
  · unfold Location.fromStr locationSpec
    cases hsp : splitOnChar '-' s with
    | nil => simp [collectU64]
    | cons p ps =>
      cases ps with
      | nil =>
        simp only [collectU64, parseU64_eq_spec]
        by_cases hp : u64Str p <;> simp [hp]
      | cons q qs =>
        cases qs with
        | nil =>
          simp only [collectU64, parseU64_eq_spec]
          by_cases hp : u64Str p <;> by_cases hq : u64Str q <;> simp [hp, hq]
        | cons r rs =>
          cases hc : collectU64 (p :: q :: r :: rs) with
          | none => simp
          | some vs =>
            have hlen := collectU64_length _ _ hc
            cases vs with
            | nil => simp at hlen
            | cons v1 vs1 =>
              cases vs1 with
              | nil => simp at hlen
              | cons v2 vs2 =>
                cases vs2 with
                | nil => simp at hlen
                | cons v3 vs3 => simp

/-- Witness for C6 at the concrete range `"100-105"`. -/
theorem c6_location_amended_witness :
    Location.fromStr "100-105".toList = .ok (100, 105) :=
  ((c6_location_amended "100-105".toList).1 (100, 105)).mpr (by decide)

/-- Counterexample to C6 as stated: splitting `"18446744073709551616"`
    (`2^64`) on `'-'` yields exactly one part, a non-empty string of
    decimal digits — an unsigned integer — yet `Location::from_str` fails
    with `InvalidLocation` because the value overflows a `u64`. -/
theorem c6_counterexample :
    splitOnChar '-' "18446744073709551616".toList =
      ["18446744073709551616".toList] ∧
    isDigitStr "18446744073709551616".toList = true ∧
    Location.fromStr "18446744073709551616".toList =
      .error (.InvalidLocation "18446744073709551616".toList) := by
  decide

/-! ### Helper lemmas about the string primitives -/

theorem startsWith_self_append (p rest : List Char) :
    startsWith p (p ++ rest) = true := by
  induction p with
  | nil => rfl
  | cons c cs ih => simp [startsWith, ih]

theorem startsWith_eq_append (p s : List Char) (h : startsWith p s = true) :
    s = p ++ s.drop p.length := by
  induction p generalizing s with
  | nil => simp
  | cons c cs ih =>
    cases s with
    | nil => simp [startsWith] at h
    | cons b bs =>
      rw [startsWith, Bool.and_eq_true] at h
      have hb : c = b := by simpa using h.1
      subst hb
      simpa using ih bs h.2

theorem containsSeq_of_startsWith (p s : List Char) (h : startsWith p s = true) :
    containsSeq p s = true := by
  cases s with
  | nil =>
    cases p with
    | nil => rfl
    | cons c cs => simp [startsWith] at h
  | cons b bs => simp [containsSeq, h]

theorem containsSeq_cons_of (p s : List Char) (a : Char)
    (h : containsSeq p s = true) : containsSeq p (a :: s) = true := by
  simp [containsSeq, h]

theorem containsSeq_of_decomp (p pre post : List Char) :
    containsSeq p (pre ++ p ++ post) = true := by
  induction pre with
  | nil => exact containsSeq_of_startsWith p (p ++ post) (startsWith_self_append p post)
  | cons a pre ih => exact containsSeq_cons_of p (pre ++ p ++ post) a ih

theorem contains_eq_false_of_all (l : List Char) (c : Char)
    (h : ∀ x ∈ l, x ≠ c) : l.contains c = false := by
  induction l with
  | nil => rfl
  | cons b bs ih =>
    have hb : ¬ c = b := fun hc => h b (List.mem_cons_self b bs) (hc ▸ rfl)
    simp only [List.contains_cons]
    rw [ih (fun x hx => h x (List.mem_cons_of_mem b hx))]
    simpa using hb

theorem isDigit_ne_of (c : Char) (h : c.isDigit = true) :
    c ≠ '\n' ∧ c ≠ '+' ∧ c ≠ ' ' ∧ c ≠ 'o' := by
  refine ⟨?_, ?_, ?_, ?_⟩ <;> (intro he; subst he; simp [Char.isDigit] at h)

theorem isLocChar_ne_of (c : Char) (h : isLocChar c = true) :
    c ≠ '\n' ∧ c ≠ ' ' ∧ c ≠ 'o' := by
  rw [isLocChar, Bool.or_eq_true] at h
  rcases h with h | h
  · obtain ⟨h1, _, h3, h4⟩ := isDigit_ne_of c h
    exact ⟨h1, h3, h4⟩
  · have : c = '-' := by simpa using h
    subst this
    exact ⟨by decide, by decide, by decide⟩

/-! ### Helper lemmas for the title-line regex model -/

theorem lastSplitTwo_cons (c1 c2 a : Char) (rest : List Char) :
    lastSplitTwo c1 c2 (a :: rest) =
      match lastSplitTwo c1 c2 rest with
      | some (pre, post) => some (a :: pre, post)
      | none =>
        match rest with
        | b :: rest2 => if a == c1 && b == c2 then some ([], rest2) else none
        | [] => none := rfl

theorem lastSplitTwo_none (c1 c2 : Char) (s : List Char)
    (h : containsSeq [c1, c2] s = false) : lastSplitTwo c1 c2 s = none := by
  induction s with
  | nil => rfl
  | cons a rest ih =>
    rw [containsSeq, Bool.or_eq_false_iff] at h
    rw [lastSplitTwo_cons, ih h.2]
    cases rest with
    | nil => rfl
    | cons b rest2 =>
      have hsw := h.1
      simp only [startsWith, Bool.and_eq_false_iff] at hsw
      have hb : (a == c1 && b == c2) = false := by
        simp only [Bool.and_eq_false_iff, beq_eq_false_iff_ne]
        rcases hsw with hc | hc | hc
        · exact Or.inl (fun he => (beq_eq_false_iff_ne.mp hc) he.symm)
        · exact Or.inr (fun he => (beq_eq_false_iff_ne.mp hc) he.symm)
        · simp [startsWith] at hc
      simp [hb]

theorem lastSplitTwo_exact (c1 c2 : Char) (pre suf : List Char)
    (h : containsSeq [c1, c2] (c2 :: suf) = false) :
    lastSplitTwo c1 c2 (pre ++ c1 :: c2 :: suf) = some (pre, suf) := by
  induction pre with
  | nil =>
    rw [List.nil_append, lastSplitTwo_cons, lastSplitTwo_none c1 c2 (c2 :: suf) h]
    simp
  | cons a pre ih =>
    rw [List.cons_append, lastSplitTwo_cons, ih]

/-- The title-line regex recovers exactly the constructing substrings
    whenever the author part contains no `" ("` (the greedy capture would
    otherwise split at a later occurrence) and neither part contains a
    newline. -/
theorem titleCaptures_round (t a : List Char)
    (hat : ∀ x ∈ t, x ≠ '\n') (haa : ∀ x ∈ a, x ≠ '\n')
    (hpa : containsSeq [' ', '('] a = false) :
    titleCaptures (titleLine t a) = some (t, a) := by
  have hline : titleLine t a = (t ++ [' ', '('] ++ a) ++ [')'] := by
    simp [titleLine, List.append_assoc]
  have hnl : (titleLine t a).contains '\n' = false := by
    apply contains_eq_false_of_all
    intro x hx
    rw [titleLine] at hx
    simp only [List.mem_append, List.mem_cons, List.not_mem_nil, or_false] at hx
    rcases hx with hx | rfl | rfl | hx | rfl
    · exact hat x hx
    · decide
    · decide
    · exact haa x hx
    · decide
  rw [titleCaptures, hnl]
  rw [hline, List.getLast?_concat, List.dropLast_concat]
  simp only [Bool.false_eq_true, if_false, beq_self_eq_true, if_true]
  have hsplit : t ++ [' ', '('] ++ a = t ++ ' ' :: '(' :: a := by simp
  rw [hsplit]
  apply lastSplitTwo_exact
  rw [containsSeq, Bool.or_eq_false_iff]
  exact ⟨by simp [startsWith], hpa⟩

/-! ### Helper lemmas for the metadata-line regex model -/

theorem spanClass_append (p : Char → Bool) (xs rest : List Char)
    (hxs : xs.all p = true) (hrest : ∀ b bs, rest = b :: bs → p b = false) :
    spanClass p (xs ++ rest) = (xs, rest) := by
  induction xs with
  | nil =>
    cases rest with
    | nil => rfl
    | cons b bs => simp [spanClass, hrest b bs rfl]
  | cons x xs ih =>
    rw [List.all_cons, Bool.and_eq_true] at hxs
    simp [spanClass, hxs.1, ih hxs.2]

theorem locDate_exact (c0 : Char) (cs d : List Char)
    (hcl : (c0 :: cs).all isLocChar = true) :
    locDate (" Location ".toList ++ ((c0 :: cs) ++ (" | Added on ".toList ++ d))) =
      some (c0 :: cs, d) := by
  have hspan : spanClass isLocChar ((c0 :: cs) ++ (" | Added on ".toList ++ d)) =
      (c0 :: cs, " | Added on ".toList ++ d) := by
    apply spanClass_append _ _ _ hcl
    intro b bs h
    rw [show " | Added on ".toList ++ d = ' ' :: ("| Added on ".toList ++ d) from rfl] at h
    injection h with h1 _
    subst h1
    decide
  have hsw : startsWith " Location ".toList
      (" Location ".toList ++ ((c0 :: cs) ++ (" | Added on ".toList ++ d))) = true :=
    startsWith_self_append _ _
  unfold locDate
  rw [hsw]
  simp only [if_true]
  rw [show (" Location ".toList ++ ((c0 :: cs) ++ (" | Added on ".toList ++ d))).drop 10 =
    (c0 :: cs) ++ (" | Added on ".toList ++ d) from rfl]
  rw [hspan]
  simp only []
  rw [show startsWith " | Added on ".toList (" | Added on ".toList ++ d) = true from rfl]
  simp only [if_true]
  rw [show (" | Added on ".toList ++ d).drop 12 = d from rfl]

theorem pageClause_exact (c0 : Char) (cs tail : List Char)
    (hd : (c0 :: cs).all Char.isDigit = true) :
    pageClause (" page ".toList ++ ((c0 :: cs) ++ (" |".toList ++ tail))) =
      some (c0 :: cs, tail) := by
  have hspan : spanClass Char.isDigit ((c0 :: cs) ++ (" |".toList ++ tail)) =
      (c0 :: cs, " |".toList ++ tail) := by
    apply spanClass_append _ _ _ hd
    intro b bs h
    rw [show " |".toList ++ tail = ' ' :: ("|".toList ++ tail) from rfl] at h
    injection h with h1 _
    subst h1
    decide
  have hsw : startsWith " page ".toList
      (" page ".toList ++ ((c0 :: cs) ++ (" |".toList ++ tail))) = true :=
    startsWith_self_append _ _
  unfold pageClause
  rw [hsw]
  simp only [if_true]
  rw [show (" page ".toList ++ ((c0 :: cs) ++ (" |".toList ++ tail))).drop 6 =
    (c0 :: cs) ++ (" |".toList ++ tail) from rfl]
  rw [hspan]
  simp only []
  rw [show startsWith " |".toList (" |".toList ++ tail) = true from rfl]
  simp only [if_true]
  rw [show (" |".toList ++ tail).drop 2 = tail from rfl]

theorem restMatch_exact_page (c0 p0 : Char) (cs ps d : List Char)
    (hp : (p0 :: ps).all Char.isDigit = true)
    (hcl : (c0 :: cs).all isLocChar = true) :
    restMatch (" page ".toList ++ ((p0 :: ps) ++ (" |".toList ++
      (" Location ".toList ++ ((c0 :: cs) ++ (" | Added on ".toList ++ d)))))) =
      some (some (p0 :: ps), c0 :: cs, d) := by
  simp only [restMatch, pageClause_exact p0 ps _ hp, locDate_exact c0 cs d hcl]

theorem restMatch_exact_nopage (c0 : Char) (cs d : List Char)
    (hcl : (c0 :: cs).all isLocChar = true) :
    restMatch (" Location ".toList ++ ((c0 :: cs) ++ (" | Added on ".toList ++ d))) =
      some (none, c0 :: cs, d) := by
  simp only [restMatch,
    show pageClause (" Location ".toList ++ ((c0 :: cs) ++ (" | Added on ".toList ++ d))) =
      none from by unfold pageClause; rfl,
    locDate_exact c0 cs d hcl]

theorem restMatch_space_none (d : List Char)
    (hd4 : startsWith "page ".toList d = false)
    (hd5 : startsWith "Location ".toList d = false) :
    restMatch (' ' :: d) = none := by
  have hpc : pageClause (' ' :: d) = none := by
    unfold pageClause
    rw [show startsWith " page ".toList (' ' :: d) = startsWith "page ".toList d from rfl, hd4]
    rfl
  have hld : locDate (' ' :: d) = none := by
    unfold locDate
    rw [show startsWith " Location ".toList (' ' :: d) =
      startsWith "Location ".toList d from rfl, hd5]
    rfl
  simp [restMatch, hpc, hld]

theorem kindSplit_cons (a : Char) (rest : List Char) :
    kindSplit (a :: rest) =
      match kindSplit rest with
      | some (k, r) => some (a :: k, r)
      | none =>
        if startsWith " on".toList (a :: rest) then
          match restMatch ((a :: rest).drop 3) with
          | some r => some ([], r)
          | none => none
        else none := rfl

theorem kindSplit_none (s : List Char)
    (h : ∀ p q, s = p ++ ' ' :: 'o' :: 'n' :: q → restMatch q = none) :
    kindSplit s = none := by
  induction s with
  | nil => rfl
  | cons a rest ih =>
    have hrest : kindSplit rest = none :=
      ih (fun p q hpq => h (a :: p) q (by rw [List.cons_append, hpq]))
    rw [kindSplit_cons, hrest]
    by_cases hsw : startsWith " on".toList (a :: rest) = true
    · have hq := h [] ((a :: rest).drop 3)
        (by rw [List.nil_append]; exact startsWith_eq_append _ _ hsw)
      rw [if_pos hsw, hq]
    · rw [if_neg hsw]

theorem kindSplit_prepend (xs tail : List Char) (k : List Char)
    (r : Option (List Char) × List Char × List Char)
    (h : kindSplit tail = some (k, r)) :
    kindSplit (xs ++ tail) = some (xs ++ k, r) := by
  induction xs with
  | nil => simpa using h
  | cons a xs ih =>
    rw [List.cons_append, kindSplit_cons, ih]
    rfl

theorem kindSplit_on_prefix_none (rest0 : List Char)
    (h : ∀ p q, rest0 = p ++ ' ' :: 'o' :: 'n' :: q → restMatch q = none) :
    kindSplit ('o' :: 'n' :: rest0) = none := by
  apply kindSplit_none
  intro p q hpq
  cases p with
  | nil =>
    injection hpq with h1 _
    exact absurd h1 (by decide)
  | cons b p' =>
    injection hpq with _ hrest2
    cases p' with
    | nil =>
      injection hrest2 with h1 _
      exact absurd h1 (by decide)
    | cons b2 p'' =>
      injection hrest2 with _ hrest3
      exact h p'' q hrest3

theorem kindSplit_on_exact (rest0 : List Char)
    (r : Option (List Char) × List Char × List Char)
    (hnone : kindSplit ('o' :: 'n' :: rest0) = none)
    (hr : restMatch rest0 = some r) :
    kindSplit (' ' :: 'o' :: 'n' :: rest0) = some ([], r) := by
  rw [kindSplit_cons, hnone]
  simp only []
  rw [show startsWith " on".toList (' ' :: 'o' :: 'n' :: rest0) = true from rfl]
  simp only [if_true]
  rw [show (' ' :: 'o' :: 'n' :: rest0).drop 3 = rest0 from rfl, hr]

/-! ### No-occurrence lemmas: no later `" on"` split can match

The kind capture `(.*)` in the metadata regex is greedy, so the match found
is the LAST occurrence of `" on"` whose remainder the rest-matcher accepts.
The following lemmas establish, for a synthetic metadata line built from
well-formed fields, that every occurrence of `" on"` after the one
terminating the kind label is rejected by the rest-matcher, so the greedy
split lands exactly at the end of the kind label. -/

theorem noOcc_of_not_contains (s : List Char)
    (h : containsSeq [' ', 'o', 'n'] s = false) :
    ∀ p q, s = p ++ ' ' :: 'o' :: 'n' :: q → restMatch q = none := by
  intro p q hpq
  exfalso
  rw [hpq] at h
  have hc := containsSeq_of_decomp [' ', 'o', 'n'] p q
  rw [show p ++ [' ', 'o', 'n'] ++ q = p ++ ' ' :: 'o' :: 'n' :: q from by simp] at hc
  rw [hc] at h
  simp at h

theorem noOcc_cons_nonspace (a : Char) (s : List Char) (ha : a ≠ ' ')
    (hs : ∀ p q, s = p ++ ' ' :: 'o' :: 'n' :: q → restMatch q = none) :
    ∀ p q, (a :: s) = p ++ ' ' :: 'o' :: 'n' :: q → restMatch q = none := by
  intro p q hpq
  cases p with
  | nil =>
    injection hpq with h1 _
    exact absurd h1 ha
  | cons b p' =>
    injection hpq with _ h2
    exact hs p' q h2

theorem noOcc_append_nonspace (xs s : List Char) (hxs : ∀ c ∈ xs, c ≠ ' ')
    (hs : ∀ p q, s = p ++ ' ' :: 'o' :: 'n' :: q → restMatch q = none) :
    ∀ p q, (xs ++ s) = p ++ ' ' :: 'o' :: 'n' :: q → restMatch q = none := by
  induction xs with
  | nil => simpa using hs
  | cons a xs ih =>
    rw [List.cons_append]
    exact noOcc_cons_nonspace a (xs ++ s) (hxs a (List.mem_cons_self a xs))
      (ih (fun c hc => hxs c (List.mem_cons_of_mem a hc)))

theorem noOcc_cons_space_ne (b : Char) (s : List Char) (hb : b ≠ 'o')
    (hs : ∀ p q, (b :: s) = p ++ ' ' :: 'o' :: 'n' :: q → restMatch q = none) :
    ∀ p q, (' ' :: b :: s) = p ++ ' ' :: 'o' :: 'n' :: q → restMatch q = none := by
  intro p q hpq
  cases p with
  | nil =>
    injection hpq with _ h2
    injection h2 with h3 _
    exact absurd h3 hb
  | cons c p' =>
    injection hpq with _ h2
    exact hs p' q h2

theorem noOcc_cons_space (s : List Char)
    (hhead : ∀ q, s = 'o' :: 'n' :: q → restMatch q = none)
    (hs : ∀ p q, s = p ++ ' ' :: 'o' :: 'n' :: q → restMatch q = none) :
    ∀ p q, (' ' :: s) = p ++ ' ' :: 'o' :: 'n' :: q → restMatch q = none := by
  intro p q hpq
  cases p with
  | nil =>
    injection hpq with _ h2
    exact hhead q h2
  | cons c p' =>
    injection hpq with _ h2
    exact hs p' q h2

/-- No acceptable `" on"` split exists anywhere in `" | Added on " ++ d`:
    the occurrence inside `"Added on"` is followed by `" " ++ d`, which the
    rest-matcher rejects because `d` begins with neither `"page "` nor
    `"Location "`; every other position has no `" on"` at all. -/
theorem noOcc_added_tail (d : List Char)
    (hd2 : containsSeq [' ', 'o', 'n'] d = false)
    (hd3 : startsWith ['o', 'n'] d = false)
    (hd4 : startsWith "page ".toList d = false)
    (hd5 : startsWith "Location ".toList d = false) :
    ∀ p q, (" | Added on ".toList ++ d) = p ++ ' ' :: 'o' :: 'n' :: q →
      restMatch q = none := by
  have h0 : ∀ p q, d = p ++ ' ' :: 'o' :: 'n' :: q → restMatch q = none :=
    noOcc_of_not_contains d hd2
  have h1 : ∀ p q, (' ' :: d) = p ++ ' ' :: 'o' :: 'n' :: q → restMatch q = none := by
    apply noOcc_cons_space d ?_ h0
    intro q hq
    rw [hq] at hd3
    simp [startsWith] at hd3
  have h2 := noOcc_cons_nonspace 'n' _ (by decide) h1
  have h3 := noOcc_cons_nonspace 'o' _ (by decide) h2
  have h4 : ∀ p q, (' ' :: 'o' :: 'n' :: ' ' :: d) = p ++ ' ' :: 'o' :: 'n' :: q →
      restMatch q = none := by
    apply noOcc_cons_space _ ?_ h3
    intro q hq
    injection hq with _ hq2
    injection hq2 with _ hq3
    rw [← hq3]
    exact restMatch_space_none d hd4 hd5
  have h5 := noOcc_cons_nonspace 'd' _ (by decide) h4
  have h6 := noOcc_cons_nonspace 'e' _ (by decide) h5
  have h7 := noOcc_cons_nonspace 'd' _ (by decide) h6
  have h8 := noOcc_cons_nonspace 'd' _ (by decide) h7
  have h9 := noOcc_cons_nonspace 'A' _ (by decide) h8
  have h10 := noOcc_cons_space_ne 'A' _ (by decide) h9
  have h11 := noOcc_cons_nonspace '|' _ (by decide) h10
  have h12 := noOcc_cons_space_ne '|' _ (by decide) h11
  rw [show " | Added on ".toList ++ d =
    ' ' :: '|' :: ' ' :: 'A' :: 'd' :: 'd' :: 'e' :: 'd' :: ' ' :: 'o' :: 'n' :: ' ' :: d
    from rfl]
  exact h12

/-- No acceptable `" on"` split exists in
    `" Location " ++ loc ++ " | Added on " ++ d` for a location made of
    digits and hyphens. -/
theorem noOcc_loc_tail (c0 : Char) (cs d : List Char)
    (hcl : (c0 :: cs).all isLocChar = true)
    (htail : ∀ p q, (" | Added on ".toList ++ d) = p ++ ' ' :: 'o' :: 'n' :: q →
      restMatch q = none) :
    ∀ p q, (" Location ".toList ++ ((c0 :: cs) ++ (" | Added on ".toList ++ d))) =
      p ++ ' ' :: 'o' :: 'n' :: q → restMatch q = none := by
  rw [List.all_eq_true] at hcl
  have hxs : ∀ c ∈ (c0 :: cs), c ≠ ' ' :=
    fun c hc => (isLocChar_ne_of c (hcl c hc)).2.1
  have hA := noOcc_append_nonspace (c0 :: cs) _ hxs htail
  have hA' : ∀ p q, (c0 :: (cs ++ (" | Added on ".toList ++ d))) =
      p ++ ' ' :: 'o' :: 'n' :: q → restMatch q = none := by
    rw [← List.cons_append]
    exact hA
  have hc0 : c0 ≠ 'o' :=
    (isLocChar_ne_of c0 (hcl c0 (List.mem_cons_self _ _))).2.2
  have h1 := noOcc_cons_space_ne c0 _ hc0 hA'
  have h2 := noOcc_cons_nonspace 'n' _ (by decide) h1
  have h3 := noOcc_cons_nonspace 'o' _ (by decide) h2
  have h4 := noOcc_cons_nonspace 'i' _ (by decide) h3
  have h5 := noOcc_cons_nonspace 't' _ (by decide) h4
  have h6 := noOcc_cons_nonspace 'a' _ (by decide) h5
  have h7 := noOcc_cons_nonspace 'c' _ (by decide) h6
  have h8 := noOcc_cons_nonspace 'o' _ (by decide) h7
  have h9 := noOcc_cons_nonspace 'L' _ (by decide) h8
  have h10 := noOcc_cons_space_ne 'L' _ (by decide) h9
  rw [show " Location ".toList ++ ((c0 :: cs) ++ (" | Added on ".toList ++ d)) =
    ' ' :: 'L' :: 'o' :: 'c' :: 'a' :: 't' :: 'i' :: 'o' :: 'n' :: ' ' ::
      c0 :: (cs ++ (" | Added on ".toList ++ d)) from rfl]
  exact h10

/-- No acceptable `" on"` split exists in `" page " ++ D ++ " |" ++ tail`
    for a digit page capture, given none exists in `tail`. -/
theorem noOcc_page_tail (p0 : Char) (ps tail : List Char)
    (hp : (p0 :: ps).all Char.isDigit = true)
    (htail : ∀ p q, tail = p ++ ' ' :: 'o' :: 'n' :: q → restMatch q = none) :
    ∀ p q, (" page ".toList ++ ((p0 :: ps) ++ (" |".toList ++ tail))) =
      p ++ ' ' :: 'o' :: 'n' :: q → restMatch q = none := by
  rw [List.all_eq_true] at hp
  have hbar1 := noOcc_cons_nonspace '|' _ (by decide) htail
  have hbar2 := noOcc_cons_space_ne '|' _ (by decide) hbar1
  have hdig : ∀ c ∈ (p0 :: ps), c ≠ ' ' :=
    fun c hc => (isDigit_ne_of c (hp c hc)).2.2.1
  have hD := noOcc_append_nonspace (p0 :: ps) _ hdig hbar2
  have hD' : ∀ p q, (p0 :: (ps ++ (' ' :: '|' :: tail))) =
      p ++ ' ' :: 'o' :: 'n' :: q → restMatch q = none := by
    rw [← List.cons_append]
    exact hD
  have hp0 : p0 ≠ 'o' :=
    (isDigit_ne_of p0 (hp p0 (List.mem_cons_self _ _))).2.2.2
  have h2 := noOcc_cons_space_ne p0 _ hp0 hD'
  have h3 := noOcc_cons_nonspace 'e' _ (by decide) h2
  have h4 := noOcc_cons_nonspace 'g' _ (by decide) h3
  have h5 := noOcc_cons_nonspace 'a' _ (by decide) h4
  have h6 := noOcc_cons_nonspace 'p' _ (by decide) h5
  have h7 := noOcc_cons_space_ne 'p' _ (by decide) h6
  rw [show " page ".toList ++ ((p0 :: ps) ++ (" |".toList ++ tail)) =
    ' ' :: 'p' :: 'a' :: 'g' :: 'e' :: ' ' :: p0 :: (ps ++ (' ' :: '|' :: tail))
    from rfl]
  exact h7

/-- The metadata-line regex recovers exactly the constructing field
    substrings of a synthetic metadata line: the kind label (none of the
    three contains `" on"`), the optional digit page capture, the
    digit-and-hyphen location capture, and the date capture, provided the
    date has no newline, contains no `" on"`, does not begin with `"on"`,
    and does not begin with `"page "` or `"Location "` (all true of dates
    in the device's fixed format). -/
theorem metaCaptures_round (k : EntryType) (pagec : Option (List Char))
    (loc d : List Char)
    (hLoc : loc ≠ []) (hLocCl : loc.all isLocChar = true)
    (hPage : ∀ D, pagec = some D → D ≠ [] ∧ D.all Char.isDigit = true)
    (hdNl : ∀ x ∈ d, x ≠ '\n')
    (hd2 : containsSeq [' ', 'o', 'n'] d = false)
    (hd3 : startsWith ['o', 'n'] d = false)
    (hd4 : startsWith "page ".toList d = false)
    (hd5 : startsWith "Location ".toList d = false) :
    metaCaptures (metaLine k pagec loc d) = some (k.label, pagec, loc, d) := by
  obtain ⟨c0, cs, hlc⟩ : ∃ c0 cs, loc = c0 :: cs := by
    cases loc with
    | nil => exact absurd rfl hLoc
    | cons c0 cs => exact ⟨c0, cs, rfl⟩
  subst hlc
  have htail := noOcc_added_tail d hd2 hd3 hd4 hd5
  have hlocOcc := noOcc_loc_tail c0 cs d hLocCl htail
  have hlocRm := restMatch_exact_nopage c0 cs d hLocCl
  -- the part after the kind capture's " on"
  have hks : kindSplit (' ' :: 'o' :: 'n' ::
      (pageSeg pagec ++ (" Location ".toList ++ ((c0 :: cs) ++ (" | Added on ".toList ++ d))))) =
      some ([], (pagec, c0 :: cs, d)) := by
    cases pagec with
    | none =>
      rw [show pageSeg none ++ (" Location ".toList ++ ((c0 :: cs) ++ (" | Added on ".toList ++ d))) =
        " Location ".toList ++ ((c0 :: cs) ++ (" | Added on ".toList ++ d)) from rfl]
      exact kindSplit_on_exact _ _ (kindSplit_on_prefix_none _ hlocOcc) hlocRm
    | some D =>
      obtain ⟨hDne, hDdig⟩ := hPage D rfl
      obtain ⟨p0, ps, hD⟩ : ∃ p0 ps, D = p0 :: ps := by
        cases D with
        | nil => exact absurd rfl hDne
        | cons p0 ps => exact ⟨p0, ps, rfl⟩
      subst hD
      have hshape : pageSeg (some (p0 :: ps)) ++
          (" Location ".toList ++ ((c0 :: cs) ++ (" | Added on ".toList ++ d))) =
          " page ".toList ++ ((p0 :: ps) ++ (" |".toList ++
            (" Location ".toList ++ ((c0 :: cs) ++ (" | Added on ".toList ++ d))))) := by
        simp [pageSeg, List.append_assoc]
      rw [hshape]
      exact kindSplit_on_exact _ _
        (kindSplit_on_prefix_none _ (noOcc_page_tail p0 ps _ hDdig hlocOcc))
        (restMatch_exact_page c0 p0 cs ps d hDdig hLocCl)
  -- newline freedom of the whole line
  have hnl : (metaLine k pagec (c0 :: cs) d).contains '\n' = false := by
    apply contains_eq_false_of_all
    intro x hx
    rw [metaLine] at hx
    simp only [List.mem_append] at hx
    rcases hx with hx | hx | hx | hx | hx | hx | hx | hx
    · exact (by decide : ∀ y ∈ "- Your ".toList, y ≠ '\n') x hx
    · cases k with
      | Highlight => exact (by decide : ∀ y ∈ "Highlight".toList, y ≠ '\n') x hx
      | Note => exact (by decide : ∀ y ∈ "Note".toList, y ≠ '\n') x hx
      | Bookmark => exact (by decide : ∀ y ∈ "Bookmark".toList, y ≠ '\n') x hx
    · exact (by decide : ∀ y ∈ " on".toList, y ≠ '\n') x hx
    · cases pagec with
      | none => simp [pageSeg] at hx
      | some D =>
        simp only [pageSeg, List.mem_append] at hx
        rcases hx with (hx | hx) | hx
        · exact (by decide : ∀ y ∈ " page ".toList, y ≠ '\n') x hx
        · have := hPage D rfl
          rw [List.all_eq_true] at this
          exact (isDigit_ne_of x (this.2 x hx)).1
        · exact (by decide : ∀ y ∈ " |".toList, y ≠ '\n') x hx
    · exact (by decide : ∀ y ∈ " Location ".toList, y ≠ '\n') x hx
    · have := hLocCl
      rw [List.all_eq_true] at this
      exact (isLocChar_ne_of x (this x hx)).1
    · exact (by decide : ∀ y ∈ " | Added on ".toList, y ≠ '\n') x hx
    · exact hdNl x hx
  -- assemble
  rw [metaCaptures, hnl]
  simp only [Bool.false_eq_true, if_false]
  have hstart : startsWith "- Your ".toList (metaLine k pagec (c0 :: cs) d) = true := by
    rw [metaLine]
    exact startsWith_self_append _ _
  rw [hstart]
  simp only [if_true]
  have hdrop : (metaLine k pagec (c0 :: cs) d).drop 7 =
      k.label ++ (" on".toList ++
        (pageSeg pagec ++ (" Location ".toList ++ ((c0 :: cs) ++ (" | Added on ".toList ++ d))))) := by
    rw [metaLine]
    rfl
  have hks2 : kindSplit (" on".toList ++
      (pageSeg pagec ++ (" Location ".toList ++ ((c0 :: cs) ++ (" | Added on ".toList ++ d))))) =
      some ([], (pagec, c0 :: cs, d)) := by
    rw [show (" on".toList : List Char) ++
      (pageSeg pagec ++ (" Location ".toList ++ ((c0 :: cs) ++ (" | Added on ".toList ++ d)))) =
      ' ' :: 'o' :: 'n' ::
        (pageSeg pagec ++ (" Location ".toList ++ ((c0 :: cs) ++ (" | Added on ".toList ++ d))))
      from rfl]
    exact hks
  rw [hdrop, kindSplit_prepend _ _ _ _ hks2, List.append_nil]

theorem page_fromStr_digits (p0 : Char) (ps : List Char)
    (hd : (p0 :: ps).all Char.isDigit = true)
    (hb : digitsVal 0 (p0 :: ps) < U64BOUND) :
    Page.fromStr (p0 :: ps) = .ok (digitsVal 0 (p0 :: ps)) := by
  have hp0 : p0 ≠ '+' := by
    rw [List.all_eq_true] at hd
    exact (isDigit_ne_of p0 (hd p0 (List.mem_cons_self _ _))).2.1
  have hsp : stripPlus (p0 :: ps) = p0 :: ps := by
    show (if p0 = '+' then ps else p0 :: ps) = p0 :: ps
    rw [if_neg hp0]
  unfold Page.fromStr
  rw [parseU64_eq_spec]
  have hu : u64Str (p0 :: ps) = true := by simp [u64Str, hsp, hd, hb]
  rw [hu]
  simp [u64Val, hsp]

/-! ### C2 -/

/-- C2 (amended): for every title, author, kind in the closed set, optional
    page digits with value below `2^64`, location of digits and hyphens
    accepted by `Location::from_str`, date string in the device's fixed
    format, and body text, `parse_entry` on the constructed four-line group
    succeeds and recovers exactly the constructing substrings.  Forced
    amendments: the author must not contain `" ("` (the greedy title capture
    would split at its last occurrence instead), and the date must actually
    parse in the fixed format (otherwise `InvalidDate` is returned) — the
    side conditions on the date (no `" on"`, not beginning with `"on"`,
    `"page "` or `"Location "`, no newline) and the `u64` bounds on page and
    location numerals hold for every well-formed field and make the greedy
    matches land at the constructing positions. -/
theorem c2_round_trip (t a d body : List Char) (k : EntryType)
    (pagec : Option (List Char)) (loc : List Char) (lv : Location)
    (dt : NaiveDateTime)
    (htNl : ∀ x ∈ t, x ≠ '\n') (haNl : ∀ x ∈ a, x ≠ '\n')
    (haPar : containsSeq [' ', '('] a = false)
    (hLoc : loc ≠ []) (hLocCl : loc.all isLocChar = true)
    (hLocOk : Location.fromStr loc = .ok lv)
    (hPage : ∀ D, pagec = some D →
      D ≠ [] ∧ D.all Char.isDigit = true ∧ digitsVal 0 D < U64BOUND)
    (hdNl : ∀ x ∈ d, x ≠ '\n')
    (hdOn : containsSeq [' ', 'o', 'n'] d = false)
    (hdOn2 : startsWith ['o', 'n'] d = false)
    (hdPage : startsWith "page ".toList d = false)
    (hdLoc : startsWith "Location ".toList d = false)
    (hdDate : parseChronoDate d = some dt) :
    parse_entry [titleLine t a, metaLine k pagec loc d, [], body] =
      some (.ok ⟨t, a, k, pagec.map (digitsVal 0), lv, dt, body⟩) := by
  have htc := titleCaptures_round t a htNl haNl haPar
  have hmc := metaCaptures_round k pagec loc d hLoc hLocCl
    (fun D hD => ⟨(hPage D hD).1, (hPage D hD).2.1⟩) hdNl hdOn hdOn2 hdPage hdLoc
  have hkind : EntryType.fromStr k.label = .ok k := by cases k <;> rfl
  have hpage : pageStep pagec = .ok (pagec.map (digitsVal 0)) := by
    cases pagec with
    | none => rfl
    | some D =>
      obtain ⟨hne, hdig, hbound⟩ := hPage D rfl
      obtain ⟨p0, ps, hD⟩ : ∃ p0 ps, D = p0 :: ps := by
        cases D with
        | nil => exact absurd rfl hne
        | cons p0 ps => exact ⟨p0, ps, rfl⟩
      subst hD
      simp [pageStep, page_fromStr_digits p0 ps hdig hbound, Except.map]
  simp [parse_entry, List.get?, htc, hmc, hkind, hpage, hLocOk, hdDate]

/-- Witness for C2 at concrete well-formed fields. -/
theorem c2_round_trip_witness :
    parse_entry [titleLine "Title".toList "Author".toList,
      metaLine .Highlight (some "5".toList) "100-105".toList
        "Tuesday, March 5, 2024 7:42:10 PM".toList,
      [], "Some highlighted text.".toList] =
      some (.ok ⟨"Title".toList, "Author".toList, .Highlight, some 5, (100, 105),
        ⟨2024, 3, 5, 19, 42, 10⟩, "Some highlighted text.".toList⟩) := by
  have h := c2_round_trip "Title".toList "Author".toList
    "Tuesday, March 5, 2024 7:42:10 PM".toList "Some highlighted text.".toList
    .Highlight (some "5".toList) "100-105".toList (100, 105)
    ⟨2024, 3, 5, 19, 42, 10⟩
    (by decide) (by decide) (by decide) (by decide) (by decide) (by decide)
    (fun D hD => by
      injection hD with hD
      subst hD
      exact ⟨by decide, by decide, by decide⟩)
    (by decide) (by decide) (by decide) (by decide) (by decide) (by decide)
  simpa using h

/-- Counterexample to C2 as stated: both header lines match their §6
    grammars (the kind is `Highlight`, the page is a digit string, the
    location is a digit range, the date capture `"x"` matches `(.+)`), yet
    `parse_entry` fails with `InvalidDate("x")` instead of succeeding — the
    claim's universally quantified "date string" must be restricted to the
    fixed date format. -/
theorem c2_counterexample :
    titleCaptures "Title (Author)".toList =
      some ("Title".toList, "Author".toList) ∧
    metaCaptures "- Your Highlight on page 5 | Location 100-105 | Added on x".toList =
      some ("Highlight".toList, some "5".toList, "100-105".toList, "x".toList) ∧
    parse_entry ["Title (Author)".toList,
      "- Your Highlight on page 5 | Location 100-105 | Added on x".toList,
      [], "body".toList] = some (.error (.InvalidDate "x".toList)) := by
  decide

end Clippings
